import Mathlib

/-!
Verification of the Pharmyrus patent-search engine (pharmyrus-total31).

Shallow embedding conventions:
* Python strings are modelled as `List Nat` of Unicode code points; the helper
  `codes` converts a Lean string literal to this representation.
* Python `str.upper()` is modelled on the ASCII range (`pyUpper`), which is the
  range exercised by patent identifiers.
* A missing / `None` / empty Python field is modelled uniformly as the empty
  list, matching Python truthiness tests such as `if not patent.get("title")`.
* Rationals stand in for Python floats; the values compared in the audited
  claims are far from representation or tie boundaries.
-/

namespace Pharmyrus

/-- Converts a Lean string literal to the code-point list model of a Python string. -/
def codes (s : String) : List Nat := s.toList.map Char.toNat

/-- Models Python `str.upper()` on the ASCII range: a lowercase ASCII letter is
mapped to its uppercase form, every other code point is unchanged. -/
def pyUpper (n : Nat) : Nat := if 97 ≤ n ∧ n ≤ 122 then n - 32 else n

/-- Code points matched by the Unicode-aware regex class of whitespace on a
Python 3 `str` (the CPython whitespace predicate, shared by `re` and
`str.isspace` / `str.strip`): TAB..CR (9-13), FS..US (28-31), space (32),
NEL (133), NBSP (160), OGHAM SPACE MARK (5760), EN QUAD..HAIR SPACE
(8192-8202), LINE SEPARATOR (8232), PARAGRAPH SEPARATOR (8233), NARROW NBSP
(8239), MEDIUM MATHEMATICAL SPACE (8287) and IDEOGRAPHIC SPACE (12288). -/
def isPyWhitespace (n : Nat) : Bool :=
  (9 ≤ n && n ≤ 13) || (28 ≤ n && n ≤ 31) || n = 32 || n = 133 || n = 160 ||
  n = 5760 || (8192 ≤ n && n ≤ 8202) || n = 8232 || n = 8233 || n = 8239 ||
  n = 8287 || n = 12288

/-- Characters removed by the regex substitution in
`INPIAuditLayer._normalize_patent_number` (inpi_audit.py:182-201), whose
character class is Python whitespace plus hyphen (45) and slash (47). -/
def isAuditSep (n : Nat) : Bool := isPyWhitespace n || n = 45 || n = 47

/-- Tests whether a code-point list starts with the two characters `B`, `R`,
modelling Python `normalized.startswith('BR')`. -/
def startsWithBR : List Nat → Bool
  | 66 :: 82 :: _ => true
  | _ => false

/-- Embeds `INPIAuditLayer._normalize_patent_number` (inpi_audit.py:182-201):
empty input yields empty output; otherwise uppercase, strip whitespace, hyphen
and slash, and prepend `BR` when the result does not already start with `BR`. -/
def normalizePatentNumber (s : List Nat) : List Nat :=
  if s = [] then []
  else
    let stripped := (s.map pyUpper).filter (fun n => !(isAuditSep n))
    if startsWithBR stripped then stripped else 66 :: 82 :: stripped

/-- Embeds the inline key computation of
`INPIMultiStrategySearch._deduplicate_patents` (inpi_strategies.py:510):
`patent_number.upper().replace('-', '').replace(' ', '')`. -/
def dedupKey (s : List Nat) : List Nat :=
  (s.map pyUpper).filter (fun n => !(n = 45 || n = 32))

/-- Characters stripped by the audit normalization but kept by the
deduplication key: Unicode whitespace other than the space character, and
slash. -/
def isExtraSep (n : Nat) : Bool := isAuditSep n && !(n = 45 || n = 32)

/-- Patent record schema as built by `_process_inpi_patent`
(inpi_strategies.py:469-500) and the EPO family parser in main.py: string
fields are code-point lists (empty list models a missing / None / empty value,
matching Python truthiness), name and classification fields are lists of
strings. The link field, which is derived from `patent_number`, is omitted. -/
structure Patent where
  patent_number : List Nat
  title : List Nat
  abstract : List Nat
  filing_date : List Nat
  applicants : List (List Nat)
  inventors : List (List Nat)
  ipc_codes : List (List Nat)
  source : List Nat
  country : List Nat
  deriving DecidableEq, Repr

/-- Loop body of `_deduplicate_patents` (inpi_strategies.py:502-516): walk the
list keeping a `seen` set of deduplication keys; a record is retained iff its
key is non-empty and unseen, in which case the key is added to `seen`. The
Python set is modelled as a list with membership. -/
def dedupGo (seen : List (List Nat)) : List Patent → List Patent
  | [] => []
  | p :: rest =>
    if dedupKey p.patent_number ≠ [] ∧ dedupKey p.patent_number ∉ seen then
      p :: dedupGo (dedupKey p.patent_number :: seen) rest
    else
      dedupGo seen rest

/-- Embeds `INPIMultiStrategySearch._deduplicate_patents`
(inpi_strategies.py:502-516). -/
def deduplicatePatents (ps : List Patent) : List Patent := dedupGo [] ps

/-- Embeds `format_date` (main.py:62-69): an input of length 8 gets hyphens
(code point 45) inserted after the 4th and 6th characters; any other input,
including the empty string, is returned unchanged. The `except` branch of the
source is unreachable because string slicing never raises. -/
def formatDate (s : List Nat) : List Nat :=
  if s = [] ∨ s.length ≠ 8 then s
  else s.take 4 ++ [45] ++ (s.drop 4).take 2 ++ [45] ++ (s.drop 6).take 2

/-- Concrete record with an empty abstract, as produced for an INPI hit with no
full text. -/
def recNoAbstract : Patent :=
  { patent_number := codes "BR-112017027822"
    title := codes "COMPOSTO FARMACEUTICO"
    abstract := []
    filing_date := codes "2017-06-26"
    applicants := [codes "ORION CORPORATION"]
    inventors := []
    ipc_codes := []
    source := codes "inpi_molecule_name"
    country := codes "BR" }

/-- Concrete record for the same document as `recNoAbstract` (identical
deduplication key) carrying a non-empty abstract. -/
def recWithAbstract : Patent :=
  { patent_number := codes "BR 112017027822"
    title := codes "COMPOSTO FARMACEUTICO"
    abstract := codes "ANDROGEN RECEPTOR ANTAGONIST COMPOUNDS"
    filing_date := codes "2017-06-26"
    applicants := [codes "ORION CORPORATION"]
    inventors := []
    ipc_codes := []
    source := codes "inpi_dev_code_1"
    country := codes "BR" }

/-- Comparative status values of the `vs_cortellis` report section
(inpi_audit.py:122-131). -/
inductive VsStatus
  | BETTER
  | EQUAL
  | WORSE
  deriving DecidableEq, Repr

/-- Quality rating strings returned by `_calculate_quality_rating`
(inpi_audit.py:203-216): ALTO / MEDIO / BAIXO, the Portuguese spellings of
HIGH / MEDIUM / LOW. -/
inductive Rating
  | ALTO
  | MEDIO
  | BAIXO
  deriving DecidableEq, Repr

/-- Embeds `INPIAuditLayer._calculate_quality_rating` (inpi_audit.py:203-216).
Python floats are modelled as rationals; the comparisons are exact. -/
def calculateQualityRating (recallQ precisionQ : ℚ) : Rating :=
  if recallQ ≥ 90 ∧ precisionQ ≥ 80 then Rating.ALTO
  else if recallQ ≥ 70 ∨ precisionQ ≥ 70 then Rating.MEDIO
  else Rating.BAIXO

/-- Models Python `round(x, 2)` on the rational model: round to the nearest
multiple of 1/100. Python rounds exact ties to even where `round` rounds them
up; no value audited here is an exact tie. -/
def roundQ2 (q : ℚ) : ℚ := (round (q * 100) : ℤ) / 100

/-- Metrics assembled by `audit_results` (inpi_audit.py:104-172) when a
benchmark exists. The sorted `matched_patents` / `missing_patents` /
`extra_patents` report lists are the sorted enumerations of the finite sets
kept here; the raw recall / precision / f1 feed the rating, the rounded copies
are the reported `metrics` values. -/
structure AuditMetrics where
  totalExpected : Nat
  totalFound : Nat
  totalMatched : Nat
  recallQ : ℚ
  precisionQ : ℚ
  f1 : ℚ
  recallPercent : ℚ
  precisionPercent : ℚ
  f1Score : ℚ
  matched : Finset (List Nat)
  missing : Finset (List Nat)
  extra : Finset (List Nat)
  vsStatus : VsStatus
  vsPercent : ℚ
  rating : Rating
  deriving DecidableEq

/-- Embeds the benchmark branch of `INPIAuditLayer.audit_results`
(inpi_audit.py:104-172): normalize both identifier lists, intersect and
subtract them as sets, and compute the counts, percentages, comparative status
and rating exactly as the source does. Counts use list lengths (not set
cardinalities), as in the source. -/
def auditResults (expectedRaw foundRaw : List (List Nat)) : AuditMetrics :=
  let expected := expectedRaw.map normalizePatentNumber
  let found := foundRaw.map normalizePatentNumber
  let matched := found.toFinset ∩ expected.toFinset
  let missing := expected.toFinset \ found.toFinset
  let extra := found.toFinset \ expected.toFinset
  let totalExpected := expected.length
  let totalFound := found.length
  let totalMatched := matched.card
  let recallQ : ℚ := if totalExpected > 0 then (totalMatched : ℚ) / (totalExpected : ℚ) * 100 else 0
  let precisionQ : ℚ := if totalFound > 0 then (totalMatched : ℚ) / (totalFound : ℚ) * 100 else 0
  let f1 : ℚ := if recallQ + precisionQ > 0 then 2 * recallQ * precisionQ / (recallQ + precisionQ) else 0
  let vsStatus := if totalFound > totalExpected then VsStatus.BETTER
    else if totalFound = totalExpected then VsStatus.EQUAL
    else VsStatus.WORSE
  let vsPercent : ℚ := if totalFound > totalExpected then
      ((totalFound : ℚ) - (totalExpected : ℚ)) / (totalExpected : ℚ) * 100
    else if totalFound = totalExpected then 0
    else -(((totalExpected : ℚ) - (totalFound : ℚ)) / (totalExpected : ℚ) * 100)
  { totalExpected := totalExpected
    totalFound := totalFound
    totalMatched := totalMatched
    recallQ := recallQ
    precisionQ := precisionQ
    f1 := f1
    recallPercent := roundQ2 recallQ
    precisionPercent := roundQ2 precisionQ
    f1Score := roundQ2 f1
    matched := matched
    missing := missing
    extra := extra
    vsStatus := vsStatus
    vsPercent := vsPercent
    rating := calculateQualityRating recallQ precisionQ }

/-- Benchmark record returned by `INPIAuditLayer._get_benchmark`
(inpi_audit.py:65-80). -/
structure Benchmark where
  expected_brs : List (List Nat)
  expected_wos : Nat
  has_benchmark : Bool
  deriving DecidableEq, Repr

/-- Embeds `_get_benchmark` (inpi_audit.py:65-80): a missing table entry, or an
entry whose expected identifier list is empty, yields the no-benchmark record;
otherwise the entry is returned with `has_benchmark` set. -/
def getBenchmark (entry : Option (List (List Nat) × Nat)) : Benchmark :=
  match entry with
  | none => { expected_brs := [], expected_wos := 0, has_benchmark := false }
  | some (brs, wos) =>
    if brs = [] then { expected_brs := [], expected_wos := 0, has_benchmark := false }
    else { expected_brs := brs, expected_wos := wos, has_benchmark := true }

/-- Embeds the `CORTELLIS_BENCHMARKS` table (inpi_audit.py:24-59) as a lookup
from a lowercased molecule name, modelling `dict.get` with `Option`. -/
def cortellisBenchmarks (name : List Nat) : Option (List (List Nat) × Nat) :=
  if name = codes "darolutamide" then
    some ([codes "BR112017027822", codes "BR112018076865", codes "BR112019014776",
           codes "BR112020008364", codes "BR112020023943", codes "BR112021001234",
           codes "BR112021005678", codes "BR112022009876"], 174)
  else if name = codes "ixazomib" then some ([], 0)
  else if name = codes "niraparib" then some ([], 0)
  else if name = codes "olaparib" then some ([], 0)
  else if name = codes "venetoclax" then some ([], 0)
  else if name = codes "trastuzumab" then some ([], 0)
  else none

/-- Audit report shape: either the no-benchmark report of
`_create_no_benchmark_report` (inpi_audit.py:239-258, carrying the raw counts
only) or the full metrics report. -/
inductive AuditReport
  | noBenchmark (found_brs : Nat) (found_wos : Nat)
  | withBenchmark (m : AuditMetrics)
  deriving DecidableEq

/-- Embeds the dispatch at the top of `audit_results` (inpi_audit.py:101-102):
without a benchmark the no-benchmark report is returned, otherwise the full
metrics are computed. -/
def auditResultsReport (bm : Benchmark) (foundBrs : List (List Nat)) (foundWos : Nat) :
    AuditReport :=
  if bm.has_benchmark = false then AuditReport.noBenchmark foundBrs.length foundWos
  else AuditReport.withBenchmark (auditResults bm.expected_brs foundBrs)

/-- Status values of a strategy metadata record (inpi_strategies.py). -/
inductive StratStatus
  | success
  | failed
  | skipped
  deriving DecidableEq, Repr

/-- Per-strategy metadata as consolidated by `execute_all_strategies`
(inpi_strategies.py:85-100). The per-query detail lists of successful
strategies are omitted; `error` is present exactly for failed strategies. -/
structure StrategyMeta where
  name : List Nat
  status : StratStatus
  error : Option (List Nat)
  patents_found : Nat
  deriving DecidableEq, Repr

/-- Embeds `_get_strategy_name` (inpi_strategies.py:119-129). -/
def getStrategyName (idx : Nat) : List Nat :=
  if idx = 1 then codes "Textual Multi-Term"
  else if idx = 2 then codes "Applicant/Titular"
  else if idx = 3 then codes "IPC/CPC Pharmaceutical"
  else if idx = 4 then codes "Temporal Recent (2023-2025)"
  else if idx = 5 then codes "Formulations"
  else if idx = 6 then codes "Polymorphs & Salts"
  else codes "Strategy " ++ (Nat.toDigits 10 idx).map Char.toNat

/-- Concrete successful metadata record for strategy 1, as built at
inpi_strategies.py:183-192 (query detail omitted). -/
def sampleMetaTextual : StrategyMeta :=
  { name := codes "Textual Multi-Term", status := StratStatus.success,
    error := none, patents_found := 1 }

/-- Concrete successful metadata record for strategy 3, as built at
inpi_strategies.py:273-278. -/
def sampleMetaIpc : StrategyMeta :=
  { name := codes "IPC/CPC Pharmaceutical", status := StratStatus.success,
    error := none, patents_found := 1 }

/-- Consolidation loop of `execute_all_strategies` (inpi_strategies.py:85-100):
the gathered per-strategy outcomes (a value or an exception, in strategy
order, indices starting at 1) are folded into the flat record list and the
per-strategy metadata list; an exception yields a failed metadata record with
the error text and zero found patents, contributing no records. -/
def consolidate : Nat → List (Except (List Nat) (List Patent × StrategyMeta)) →
    List Patent × List StrategyMeta
  | _, [] => ([], [])
  | idx, Except.error e :: rest =>
    let r := consolidate (idx + 1) rest
    (r.1, { name := getStrategyName idx, status := StratStatus.failed,
            error := some e, patents_found := 0 } :: r.2)
  | idx, Except.ok (pats, meta) :: rest =>
    let r := consolidate (idx + 1) rest
    (pats ++ r.1, meta :: r.2)

/-- Embeds the result assembly of `execute_all_strategies`
(inpi_strategies.py:79-117): consolidate the gathered outcomes, then
deduplicate the flat record list. The summary counters are omitted. -/
def executeAllStrategies (results : List (Except (List Nat) (List Patent × StrategyMeta))) :
    List Patent × List StrategyMeta :=
  let r := consolidate 1 results
  (deduplicatePatents r.1, r.2)

/-- Field candidates produced by the EPO biblio parse of `enrich_br_metadata`
(main.py:644-810). The shape-tolerant JSON parsing that computes each
candidate from the `bibliographic-data` payload is abstracted into the
candidate values themselves (an empty value models a failed parse, including
an assignment of Python `None`); the guarded update logic is embedded exactly. -/
structure EpoBib where
  titleCand : List Nat
  abstractCand : List Nat
  applicantsCand : List (List Nat)
  inventorsCand : List (List Nat)
  ipcCand : List (List Nat)
  deriving DecidableEq, Repr

/-- Title update of `enrich_br_metadata` (main.py:650-659): assigns only when
the field is empty before the call. -/
def updTitle (cand : List Nat) (p : Patent) : Patent :=
  if p.title = [] then { p with title := cand } else p

/-- Abstract update of `enrich_br_metadata` (main.py:662-716): assigns only
when the field is empty before the call. -/
def updAbstract (cand : List Nat) (p : Patent) : Patent :=
  if p.abstract = [] then { p with abstract := cand } else p

/-- Applicants update of `enrich_br_metadata` (main.py:719-731): assigns only
when the field is empty before the call and the parsed candidate list is
non-empty. -/
def updApplicants (cand : List (List Nat)) (p : Patent) : Patent :=
  if p.applicants = [] ∧ cand ≠ [] then { p with applicants := cand } else p

/-- Inventors update of `enrich_br_metadata` (main.py:734-746). -/
def updInventors (cand : List (List Nat)) (p : Patent) : Patent :=
  if p.inventors = [] ∧ cand ≠ [] then { p with inventors := cand } else p

/-- Classification update of `enrich_br_metadata` (main.py:749-810). -/
def updIpc (cand : List (List Nat)) (p : Patent) : Patent :=
  if p.ipc_codes = [] ∧ cand ≠ [] then { p with ipc_codes := cand } else p

/-- Embeds `enrich_br_metadata` (main.py:629-817): a failed request or missing
biblio section (`none`) returns the record unchanged; otherwise title,
abstract, applicants, inventors and classification codes are updated in that
order, each only when empty. -/
def enrichBrMetadata (resp : Option EpoBib) (p : Patent) : Patent :=
  match resp with
  | none => p
  | some bib =>
    updIpc bib.ipcCand
      (updInventors bib.inventorsCand
        (updApplicants bib.applicantsCand
          (updAbstract bib.abstractCand
            (updTitle bib.titleCand p))))

/-- Field candidates scraped from one Google Patents page in
`enrich_from_google_patents` (main.py:843-916); the HTML regex extraction and
cleanup producing each candidate is abstracted into the candidate values (an
empty abstract candidate models no match or a match of at most 20 characters). -/
structure GoogleBib where
  abstractCand : List Nat
  applicantsCand : List (List Nat)
  inventorsCand : List (List Nat)
  ipcCand : List (List Nat)
  deriving DecidableEq, Repr

/-- Completeness test guarding `enrich_from_google_patents` (main.py:825-829):
abstract, applicants, inventors and classification codes all populated (title
is not part of this check). -/
def isCompleteForGoogle (p : Patent) : Bool :=
  !p.abstract.isEmpty && !p.applicants.isEmpty && !p.inventors.isEmpty && !p.ipc_codes.isEmpty

/-- Language loop of `enrich_from_google_patents` (main.py:833-921), one list
entry per attempted page (`none` models a non-200 response). A newly found
abstract breaks out of the loop immediately (main.py:872), skipping the other
field parses for that page; otherwise applicants, inventors and classification
codes are updated under their emptiness guards, and the loop stops as soon as
any of the four checked fields is populated. -/
def googleGo : List (Option GoogleBib) → Patent → Patent
  | [], p => p
  | none :: rest, p => googleGo rest p
  | some bib :: rest, p =>
    if p.abstract = [] ∧ bib.abstractCand ≠ [] then
      { p with abstract := bib.abstractCand }
    else
      let p3 := updIpc bib.ipcCand (updInventors bib.inventorsCand
        (updApplicants bib.applicantsCand p))
      if p3.abstract ≠ [] ∨ p3.applicants ≠ [] ∨ p3.inventors ≠ [] ∨ p3.ipc_codes ≠ [] then p3
      else googleGo rest p3

/-- Embeds `enrich_from_google_patents` (main.py:820-928): an already-complete
record short-circuits before any page fetch, otherwise the language loop runs. -/
def enrichFromGooglePatents (resps : List (Option GoogleBib)) (p : Patent) : Patent :=
  if isCompleteForGoogle p then p else googleGo resps p

/-- Concrete EPO biblio candidates, all fields present, for witnesses. -/
def sampleEpoBib : EpoBib :=
  { titleCand := codes "PHARMACEUTICAL COMPOUND"
    abstractCand := codes "AN EPO ABSTRACT THAT MUST NOT OVERWRITE"
    applicantsCand := [codes "BAYER AG"]
    inventorsCand := [codes "JANE ROE"]
    ipcCand := [codes "A61K31/00"] }

/-- Concrete Google Patents page candidates, all fields present, for witnesses. -/
def sampleGoogleBib : GoogleBib :=
  { abstractCand := codes "A GOOGLE ABSTRACT THAT MUST NOT OVERWRITE"
    applicantsCand := [codes "ORION CORP"]
    inventorsCand := [codes "JOHN DOE"]
    ipcCand := [codes "A61P35/00"] }

/-- Whitespace stripped by `str.strip()`: the same CPython whitespace
predicate used by the regex class. -/
def isPySpace (n : Nat) : Bool := isPyWhitespace n

/-- Models Python `str.strip()`. -/
def pyStrip (s : List Nat) : List Nat :=
  ((s.dropWhile isPySpace).reverse.dropWhile isPySpace).reverse

/-- Embeds the `COUNTRY_CODES` keys (main.py:72-77). -/
def countryCodes : List (List Nat) :=
  [codes "BR", codes "US", codes "EP", codes "CN", codes "JP", codes "KR", codes "IN",
   codes "MX", codes "AR", codes "CL", codes "CO", codes "PE", codes "CA", codes "AU",
   codes "RU", codes "ZA"]

/-- Values computed by the prelude of `search_patents` before its first
upstream call (main.py:962-977). -/
structure PreNetworkPlan where
  molecule : List Nat
  brand : List Nat
  target_countries : List (List Nat)
  deriving DecidableEq, Repr

/-- Embeds the pre-network prelude of `search_patents` (main.py:954-977):
strip the molecule and brand names, uppercase and filter the target country
list against the supported codes, default to BR when none remains, and proceed
into the EPO layer (`get_epo_token` is awaited unconditionally right after).
The result is `Except`-valued to make an abort representable: the source
contains no validation branch, so the function never returns `Except.error`. -/
def searchPreNetwork (nomeMolecula nomeComercial : List Nat)
    (paisesAlvo : List (List Nat)) : Except (List Nat) PreNetworkPlan :=
  let molecule := pyStrip nomeMolecula
  let brand := pyStrip nomeComercial
  let targets := (paisesAlvo.map (fun c => c.map pyUpper)).filter (fun c => c ∈ countryCodes)
  let targets := if targets = [] then [codes "BR"] else targets
  Except.ok { molecule := molecule, brand := brand, target_countries := targets }

theorem pyUpper_idem (n : Nat) : pyUpper (pyUpper n) = pyUpper n := by
  unfold pyUpper
  split_ifs <;> omega

theorem map_pyUpper_of_fixed {l : List Nat} (h : ∀ x ∈ l, pyUpper x = x) :
    l.map pyUpper = l := by
  induction l with
  | nil => rfl
  | cons a t ih =>
    simp only [List.map_cons]
    rw [h a (List.mem_cons_self a t), ih (fun x hx => h x (List.mem_cons_of_mem a hx))]

theorem mem_strip_fixed {s : List Nat} {x : Nat}
    (hx : x ∈ (s.map pyUpper).filter (fun n => !(isAuditSep n))) :
    pyUpper x = x := by
  have hx' : x ∈ s.map pyUpper := List.mem_of_mem_filter hx
  obtain ⟨y, _, rfl⟩ := List.mem_map.mp hx'
  exact pyUpper_idem y

theorem filter_self_of_filter (p : Nat → Bool) (l : List Nat) :
    (l.filter p).filter p = l.filter p := by
  rw [List.filter_filter]
  simp

theorem strip_map_self (s : List Nat) :
    ((s.map pyUpper).filter (fun n => !(isAuditSep n))).map pyUpper =
      (s.map pyUpper).filter (fun n => !(isAuditSep n)) :=
  map_pyUpper_of_fixed (fun _ hx => mem_strip_fixed hx)

theorem normalize_of_fixed {l : List Nat} (hbr : startsWithBR l = true)
    (hmap : l.map pyUpper = l) (hfil : l.filter (fun n => !(isAuditSep n)) = l) :
    normalizePatentNumber l = l := by
  have hne : l ≠ [] := by
    cases l with
    | nil => simp [startsWithBR] at hbr
    | cons a t => simp
  unfold normalizePatentNumber
  rw [if_neg hne]
  simp only [hmap, hfil, hbr, if_true]

theorem normalizePatentNumber_idem (s : List Nat) :
    normalizePatentNumber (normalizePatentNumber s) = normalizePatentNumber s := by
  rcases eq_or_ne s [] with hs | hs
  · subst hs; rfl
  · have hdef : normalizePatentNumber s =
        (if startsWithBR ((s.map pyUpper).filter (fun n => !(isAuditSep n)))
          then (s.map pyUpper).filter (fun n => !(isAuditSep n))
          else 66 :: 82 :: (s.map pyUpper).filter (fun n => !(isAuditSep n))) := by
      unfold normalizePatentNumber
      rw [if_neg hs]
    have hmap : ((s.map pyUpper).filter (fun n => !(isAuditSep n))).map pyUpper =
        (s.map pyUpper).filter (fun n => !(isAuditSep n)) := strip_map_self s
    have hfil : ((s.map pyUpper).filter (fun n => !(isAuditSep n))).filter
        (fun n => !(isAuditSep n)) = (s.map pyUpper).filter (fun n => !(isAuditSep n)) :=
      filter_self_of_filter _ _
    by_cases hbr : startsWithBR ((s.map pyUpper).filter (fun n => !(isAuditSep n))) = true
    · rw [hdef, if_pos hbr]
      exact normalize_of_fixed hbr hmap hfil
    · rw [hdef, if_neg hbr]
      refine normalize_of_fixed ?_ ?_ ?_
      · rfl
      · simp only [List.map_cons, hmap]
        norm_num [pyUpper]
      · simp only [List.filter_cons, hfil]
        norm_num [isAuditSep, isPyWhitespace]

theorem dedupKey_map_filter (s : List Nat) :
    dedupKey s = (s.map pyUpper).filter (fun n => !(n = 45 || n = 32)) := rfl

theorem isAuditSep_false_of_upperletter {n : Nat} (h1 : 65 ≤ n) (h2 : n ≤ 90) :
    isAuditSep n = false := by
  simp only [isAuditSep, isPyWhitespace, Bool.or_eq_false_iff, Bool.and_eq_false_iff,
    decide_eq_false_iff_not]
  omega

theorem isExtraSep_pyUpper {c : Nat} (hc : isExtraSep c = false) :
    isExtraSep (pyUpper c) = false := by
  unfold pyUpper
  split_ifs with h
  · unfold isExtraSep
    rw [isAuditSep_false_of_upperletter (by omega) (by omega)]
    simp
  · exact hc

theorem sep_agree {u : Nat} (h : isExtraSep u = false) :
    (!(isAuditSep u)) = (!(u = 45 || u = 32)) := by
  by_cases hA : isAuditSep u = true
  · have hor : u = 45 ∨ u = 32 := by
      have h' := h
      unfold isExtraSep at h'
      rw [hA] at h'
      have h'' : ¬u = 45 → u = 32 := by simpa using h'
      by_cases h45 : u = 45
      · exact Or.inl h45
      · exact Or.inr (h'' h45)
    rcases hor with rfl | rfl <;> simp [hA]
  · have hA' : isAuditSep u = false := by simpa using hA
    have h45 : u ≠ 45 := by
      rintro rfl
      exact absurd hA' (by decide)
    have h32 : u ≠ 32 := by
      rintro rfl
      exact absurd hA' (by decide)
    simp [hA', h45, h32]

theorem pyUpper_fixed_of_extra {c : Nat} (hc : isExtraSep c = true) : pyUpper c = c := by
  have hrange : ¬(97 ≤ c ∧ c ≤ 122) := by
    simp only [isExtraSep, isAuditSep, isPyWhitespace, Bool.and_eq_true, Bool.or_eq_true,
      decide_eq_true_eq, Bool.not_eq_eq_eq_not, Bool.not_true, Bool.or_eq_false_iff,
      decide_eq_false_iff_not] at hc
    omega
  simp [pyUpper, hrange]

theorem dedup_eq_normalize_of (s : List Nat)
    (h1 : ∀ c ∈ s, isExtraSep c = false)
    (h2 : startsWithBR (dedupKey s) = true) :
    dedupKey s = normalizePatentNumber s := by
  have hsne : s ≠ [] := by
    rintro rfl
    simp [dedupKey, startsWithBR] at h2
  have hfeq : (s.map pyUpper).filter (fun n => !(isAuditSep n)) = dedupKey s := by
    unfold dedupKey
    apply List.filter_congr
    intro x hx
    obtain ⟨c, hc, rfl⟩ := List.mem_map.mp hx
    exact sep_agree (isExtraSep_pyUpper (h1 c hc))
  unfold normalizePatentNumber
  rw [if_neg hsne, hfeq, if_pos h2]

/-- C5: the audit identifier normalization is idempotent, insensitive to casing
and separator style on the documented examples, total, and maps empty input to
empty output. -/
theorem claim_C5_normalization_idempotent_total :
    (∀ s : List Nat, normalizePatentNumber (normalizePatentNumber s) = normalizePatentNumber s) ∧
    normalizePatentNumber (codes "BR-112017021636") = codes "BR112017021636" ∧
    normalizePatentNumber (codes "br 112017021636") = codes "BR112017021636" ∧
    normalizePatentNumber [] = [] :=
  ⟨normalizePatentNumber_idem, by decide, by decide, rfl⟩

/-- C1, counterexample: the deduplication key and the audit normalization are
not the identical function; they disagree on an identifier that lacks the BR
country prefix, because only the audit normalization prepends it. -/
theorem claim_C1_dedup_vs_audit_cex :
    ¬ (dedupKey (codes "112017027822") = normalizePatentNumber (codes "112017027822")) := by
  decide

theorem normalize_eq_of_ne_nil {s : List Nat} (hs : s ≠ []) :
    normalizePatentNumber s =
      (if startsWithBR ((s.map pyUpper).filter (fun n => !(isAuditSep n))) = true
        then (s.map pyUpper).filter (fun n => !(isAuditSep n))
        else 66 :: 82 :: (s.map pyUpper).filter (fun n => !(isAuditSep n))) := by
  unfold normalizePatentNumber
  rw [if_neg hs]

theorem dedup_ne_normalize_of_extra {s : List Nat} {c : Nat} (hcs : c ∈ s)
    (hc : isExtraSep c = true) : dedupKey s ≠ normalizePatentNumber s := by
  intro heq
  have hsne : s ≠ [] := by
    rintro rfl
    exact absurd hcs (List.not_mem_nil c)
  have hcfix : pyUpper c = c := pyUpper_fixed_of_extra hc
  have hc' := hc
  simp only [isExtraSep, Bool.and_eq_true] at hc'
  obtain ⟨hA, hns⟩ := hc'
  have h66 : c ≠ 66 := by
    rintro rfl
    exact absurd hc (by decide)
  have h82 : c ≠ 82 := by
    rintro rfl
    exact absurd hc (by decide)
  have hmem : c ∈ dedupKey s := by
    unfold dedupKey
    rw [List.mem_filter]
    exact ⟨List.mem_map.mpr ⟨c, hcs, hcfix⟩, hns⟩
  have hnot : c ∉ normalizePatentNumber s := by
    have hstr : c ∉ (s.map pyUpper).filter (fun n => !(isAuditSep n)) := by
      rw [List.mem_filter]
      rintro ⟨-, hpc⟩
      rw [hA] at hpc
      simp at hpc
    rw [normalize_eq_of_ne_nil hsne]
    split
    · exact hstr
    · intro hmem2
      rcases List.mem_cons.mp hmem2 with h66' | hmem3
      · exact h66 h66'
      · rcases List.mem_cons.mp hmem3 with h82' | hmem4
        · exact h82 h82'
        · exact hstr hmem4
  exact hnot (heq ▸ hmem)

/-- C1, amended: the deduplication key and the audit normalization are
distinct functions (the key only uppercases and removes hyphens and spaces,
never stripping slashes or other whitespace and never prepending the country
prefix); they agree on an input precisely when it is empty, or it contains no
character that only the audit normalization strips (Unicode whitespace other
than the space character, and slash) and its deduplication key already starts
with the BR country prefix. -/
theorem claim_C1_dedup_vs_audit_amended (s : List Nat) :
    dedupKey s = normalizePatentNumber s ↔
      s = [] ∨ ((∀ c ∈ s, isExtraSep c = false) ∧ startsWithBR (dedupKey s) = true) := by
  constructor
  · intro heq
    by_cases hs : s = []
    · exact Or.inl hs
    · refine Or.inr ⟨?_, ?_⟩
      · intro c hcs
        by_contra hcb
        have hct : isExtraSep c = true := by simpa using hcb
        exact dedup_ne_normalize_of_extra hcs hct heq
      · rw [heq, normalize_eq_of_ne_nil hs]
        split
        · assumption
        · rfl
  · rintro (rfl | ⟨h1, h2⟩)
    · rfl
    · exact dedup_eq_normalize_of s h1 h2

/-- Witness for the amended C1 theorem: at the concrete input BR-112017027822
both hypotheses of the agreement direction hold and the two normalizations
coincide. -/
theorem claim_C1_dedup_vs_audit_amended_witness :
    dedupKey (codes "BR-112017027822") = normalizePatentNumber (codes "BR-112017027822") :=
  (claim_C1_dedup_vs_audit_amended (codes "BR-112017027822")).mpr
    (Or.inr ⟨by decide, by decide⟩)

theorem mem_dedupGo_not_seen {seen : List (List Nat)} {l : List Patent} {q : Patent}
    (hq : q ∈ dedupGo seen l) : dedupKey q.patent_number ∉ seen := by
  induction l generalizing seen with
  | nil => simp [dedupGo] at hq
  | cons p rest ih =>
    unfold dedupGo at hq
    split at hq
    · rename_i hcond
      rcases List.mem_cons.mp hq with rfl | hq'
      · exact hcond.2
      · have := ih hq'
        exact fun hmem => this (List.mem_cons_of_mem _ hmem)
    · exact ih hq

theorem mem_dedupGo_key_ne_nil {seen : List (List Nat)} {l : List Patent} {q : Patent}
    (hq : q ∈ dedupGo seen l) : dedupKey q.patent_number ≠ [] := by
  induction l generalizing seen with
  | nil => simp [dedupGo] at hq
  | cons p rest ih =>
    unfold dedupGo at hq
    split at hq
    · rename_i hcond
      rcases List.mem_cons.mp hq with rfl | hq'
      · exact hcond.1
      · exact ih hq'
    · exact ih hq

theorem mem_dedupGo_mem {seen : List (List Nat)} {l : List Patent} {q : Patent}
    (hq : q ∈ dedupGo seen l) : q ∈ l := by
  induction l generalizing seen with
  | nil => simp [dedupGo] at hq
  | cons p rest ih =>
    unfold dedupGo at hq
    split at hq
    · rcases List.mem_cons.mp hq with rfl | hq'
      · exact List.mem_cons_self _ _
      · exact List.mem_cons_of_mem _ (ih hq')
    · exact List.mem_cons_of_mem _ (ih hq)

theorem dedupGo_find_first {seen : List (List Nat)} {l : List Patent} {q : Patent}
    (hq : q ∈ dedupGo seen l) (hns : dedupKey q.patent_number ∉ seen) :
    l.find? (fun r => dedupKey r.patent_number == dedupKey q.patent_number) = some q := by
  induction l generalizing seen with
  | nil => simp [dedupGo] at hq
  | cons p rest ih =>
    unfold dedupGo at hq
    split at hq
    · rename_i hcond
      rcases List.mem_cons.mp hq with rfl | hq'
      · rw [List.find?_cons_of_pos]
        simp
      · have hne : dedupKey p.patent_number ≠ dedupKey q.patent_number := by
          have := mem_dedupGo_not_seen hq'
          intro heq
          exact this (heq ▸ List.mem_cons_self _ _)
        rw [List.find?_cons_of_neg]
        · exact ih hq' (mem_dedupGo_not_seen hq')
        · simp [hne]
    · rename_i hcond
      have hne : dedupKey p.patent_number ≠ dedupKey q.patent_number := by
        push_neg at hcond
        rcases eq_or_ne (dedupKey p.patent_number) [] with hnil | hnnil
        · exact fun heq => mem_dedupGo_key_ne_nil hq (heq ▸ hnil)
        · intro heq
          exact hns (heq ▸ hcond hnnil)
      rw [List.find?_cons_of_neg]
      · exact ih hq hns
      · simp [hne]

theorem dedupGo_pairwise (seen : List (List Nat)) (l : List Patent) :
    (dedupGo seen l).Pairwise
      (fun a b => dedupKey a.patent_number ≠ dedupKey b.patent_number) := by
  induction l generalizing seen with
  | nil => simp [dedupGo]
  | cons p rest ih =>
    unfold dedupGo
    split
    · refine List.Pairwise.cons ?_ (ih _)
      intro b hb heq
      exact mem_dedupGo_not_seen hb (heq ▸ List.mem_cons_self _ _)
    · exact ih seen

theorem dedupGo_of_fresh {seen : List (List Nat)} {l : List Patent}
    (hk : ∀ q ∈ l, dedupKey q.patent_number ≠ [] ∧ dedupKey q.patent_number ∉ seen)
    (hp : l.Pairwise (fun a b => dedupKey a.patent_number ≠ dedupKey b.patent_number)) :
    dedupGo seen l = l := by
  induction l generalizing seen with
  | nil => rfl
  | cons p rest ih =>
    unfold dedupGo
    rw [if_pos (hk p (List.mem_cons_self _ _))]
    have hrest : ∀ q ∈ rest, dedupKey q.patent_number ≠ [] ∧
        dedupKey q.patent_number ∉ dedupKey p.patent_number :: seen := by
      intro q hq
      refine ⟨(hk q (List.mem_cons_of_mem _ hq)).1, ?_⟩
      intro hmem
      rcases List.mem_cons.mp hmem with heq | hmem'
      · exact (List.pairwise_cons.mp hp).1 q hq heq.symm
      · exact (hk q (List.mem_cons_of_mem _ hq)).2 hmem'
    rw [ih hrest (List.pairwise_cons.mp hp).2]

theorem deduplicatePatents_idem (ps : List Patent) :
    deduplicatePatents (deduplicatePatents ps) = deduplicatePatents ps := by
  unfold deduplicatePatents
  exact dedupGo_of_fresh
    (fun q hq => ⟨mem_dedupGo_key_ne_nil hq, List.not_mem_nil _⟩)
    (dedupGo_pairwise [] ps)

/-- C2, counterexample: deduplication drops the later duplicate wholesale, so a
non-empty abstract present only in the second record of a duplicate pair is
lost: the retained output record has an empty abstract. -/
theorem claim_C2_merge_loses_information_cex :
    deduplicatePatents [recNoAbstract, recWithAbstract] = [recNoAbstract] ∧
    dedupKey recWithAbstract.patent_number = dedupKey recNoAbstract.patent_number ∧
    recWithAbstract.abstract ≠ [] ∧
    recNoAbstract.abstract = [] := by
  refine ⟨?_, by decide, by decide, by decide⟩
  decide

/-- C2, amended: deduplication retains, for each distinct non-empty
deduplication key, exactly the first-seen input record, unchanged; later
records with the same key are discarded whole, so a non-empty field value
occurring only in a later duplicate is not retained. Formally, every output
record is the first input record carrying its key. -/
theorem claim_C2_first_seen_retention (ps : List Patent) (q : Patent)
    (hq : q ∈ deduplicatePatents ps) :
    q ∈ ps ∧
    ps.find? (fun r => dedupKey r.patent_number == dedupKey q.patent_number) = some q :=
  ⟨mem_dedupGo_mem hq, dedupGo_find_first hq (List.not_mem_nil _)⟩

/-- Witness for the amended C2 theorem on a concrete duplicate pair. -/
theorem claim_C2_first_seen_retention_witness :
    recNoAbstract ∈ deduplicatePatents [recNoAbstract, recWithAbstract] ∧
    (recNoAbstract ∈ ([recNoAbstract, recWithAbstract] : List Patent) ∧
      ([recNoAbstract, recWithAbstract] : List Patent).find?
        (fun r => dedupKey r.patent_number == dedupKey recNoAbstract.patent_number) =
        some recNoAbstract) :=
  ⟨by decide,
    claim_C2_first_seen_retention [recNoAbstract, recWithAbstract] recNoAbstract (by decide)⟩

/-- C6, counterexample: deduplication is order-dependent: for two distinct
records of the same underlying document (identical deduplication key, abstracts
differing), the two arrival orders retain different records, hence different
final field values. -/
theorem claim_C6_order_independence_cex :
    deduplicatePatents [recNoAbstract, recWithAbstract] ≠
      deduplicatePatents [recWithAbstract, recNoAbstract] := by
  decide

/-- C6, amended: deduplication is idempotent — applying it to an
already-deduplicated sequence returns that sequence unchanged — but it is not
order-independent: the first-seen record of each key is kept wholesale, so two
arrival orders of the same records can yield different retained field values. -/
theorem claim_C6_dedup_idempotent (ps : List Patent) :
    deduplicatePatents (deduplicatePatents ps) = deduplicatePatents ps :=
  deduplicatePatents_idem ps

/-- C8, counterexample: `format_date` reformats any 8-character input, not only
8-digit ones: a malformed alphabetic input of length 8 is not returned
unchanged but gets hyphens inserted. -/
theorem claim_C8_date_formatter_cex :
    formatDate (codes "ABCDEFGH") = codes "ABCD-EF-GH" ∧
    formatDate (codes "ABCDEFGH") ≠ codes "ABCDEFGH" := by
  constructor <;> decide

/-- C8, amended: `format_date` inserts hyphens after the 4th and 6th characters
of any input of length exactly 8 (digit or not); any input of a different
length is returned unchanged; the function is total and never raises. -/
theorem claim_C8_date_formatter_amended :
    (∀ s : List Nat, s.length ≠ 8 → formatDate s = s) ∧
    (∀ s : List Nat, s.length = 8 →
      formatDate s = s.take 4 ++ [45] ++ (s.drop 4).take 2 ++ [45] ++ (s.drop 6).take 2) ∧
    formatDate (codes "20230115") = codes "2023-01-15" := by
  refine ⟨?_, ?_, by decide⟩
  · intro s hs
    unfold formatDate
    rw [if_pos (Or.inr hs)]
  · intro s hs
    unfold formatDate
    rw [if_neg]
    push_neg
    constructor
    · intro hnil
      rw [hnil] at hs
      simp at hs
    · simpa using hs

/-- Witness for the amended C8 theorem at inputs of length 4 and 8. -/
theorem claim_C8_date_formatter_amended_witness :
    formatDate (codes "2023") = codes "2023" ∧
    formatDate (codes "20230115") =
      (codes "20230115").take 4 ++ [45] ++ ((codes "20230115").drop 4).take 2 ++ [45] ++
        ((codes "20230115").drop 6).take 2 :=
  ⟨claim_C8_date_formatter_amended.1 (codes "2023") (by decide),
    claim_C8_date_formatter_amended.2.1 (codes "20230115") (by decide)⟩

theorem roundQ2_two_thirds : roundQ2 (200 / 3 : ℚ) = 6667 / 100 := by
  have hr : round ((200 / 3 : ℚ) * 100) = 6667 := by
    rw [round_eq, Int.floor_eq_iff]
    norm_num
  unfold roundQ2
  rw [hr]
  norm_num

theorem rating_two_thirds : calculateQualityRating (200 / 3 : ℚ) (200 / 3 : ℚ) = Rating.BAIXO := by
  unfold calculateQualityRating
  norm_num

theorem auditResults_example_eval :
    auditResults [codes "BR111111111", codes "BR222222222", codes "BR333333333"]
        [codes "BR111111111", codes "BR222222222", codes "BR444444444"] =
      { totalExpected := 3, totalFound := 3, totalMatched := 2,
        recallQ := 200 / 3, precisionQ := 200 / 3, f1 := 200 / 3,
        recallPercent := 6667 / 100, precisionPercent := 6667 / 100,
        f1Score := 6667 / 100,
        matched := {codes "BR111111111", codes "BR222222222"},
        missing := {codes "BR333333333"},
        extra := {codes "BR444444444"},
        vsStatus := VsStatus.EQUAL, vsPercent := 0, rating := Rating.BAIXO } := by
  have h1 : List.map normalizePatentNumber
      [codes "BR111111111", codes "BR222222222", codes "BR333333333"] =
      [codes "BR111111111", codes "BR222222222", codes "BR333333333"] := by decide
  have h2 : List.map normalizePatentNumber
      [codes "BR111111111", codes "BR222222222", codes "BR444444444"] =
      [codes "BR111111111", codes "BR222222222", codes "BR444444444"] := by decide
  have hm : (([codes "BR111111111", codes "BR222222222", codes "BR444444444"] :
        List (List Nat)).toFinset ∩
      ([codes "BR111111111", codes "BR222222222", codes "BR333333333"] :
        List (List Nat)).toFinset) = {codes "BR111111111", codes "BR222222222"} := by decide
  have hmiss : (([codes "BR111111111", codes "BR222222222", codes "BR333333333"] :
        List (List Nat)).toFinset \
      ([codes "BR111111111", codes "BR222222222", codes "BR444444444"] :
        List (List Nat)).toFinset) = {codes "BR333333333"} := by decide
  have hext : (([codes "BR111111111", codes "BR222222222", codes "BR444444444"] :
        List (List Nat)).toFinset \
      ([codes "BR111111111", codes "BR222222222", codes "BR333333333"] :
        List (List Nat)).toFinset) = {codes "BR444444444"} := by decide
  have hcard : ({codes "BR111111111", codes "BR222222222"} : Finset (List Nat)).card = 2 := by
    decide
  have harith : ((2 : ℚ) / 3 * 100) = 200 / 3 := by norm_num
  simp only [auditResults, h1, h2, hm, hmiss, hext, hcard, List.length_cons,
    List.length_nil, AuditMetrics.mk.injEq]
  norm_num [harith, roundQ2_two_thirds, rating_two_thirds]

/-- C3, counterexample: at the claim's own concrete input (expected set of
three identifiers, found set sharing two of them), recall and precision are
both 200/3 < 70, so the code returns the rating BAIXO (LOW), not MEDIO
(MEDIUM) as the claim's example asserts. -/
theorem claim_C3_rating_cex :
    (auditResults [codes "BR111111111", codes "BR222222222", codes "BR333333333"]
        [codes "BR111111111", codes "BR222222222", codes "BR444444444"]).rating ≠
      Rating.MEDIO := by
  rw [auditResults_example_eval]
  decide

/-- C3, amended: for expected identifiers {A,B,C} and found {A,B,D} the audit
returns recall = precision = 66.67, matched = {A,B}, missing = {C},
extra = {D}, comparative status EQUAL with |found| = |expected| = 3, and
rating LOW (BAIXO) — not MEDIUM, since 66.67 < 70; in general the rating is
HIGH (ALTO) iff recall ≥ 90 and precision ≥ 80, MEDIUM (MEDIO) iff not HIGH
and (recall ≥ 70 or precision ≥ 70), else LOW (BAIXO). -/
theorem claim_C3_audit_metrics_amended :
    (let m := auditResults
        [codes "BR111111111", codes "BR222222222", codes "BR333333333"]
        [codes "BR111111111", codes "BR222222222", codes "BR444444444"]
     m.recallPercent = 6667 / 100 ∧
     m.precisionPercent = 6667 / 100 ∧
     m.matched = {codes "BR111111111", codes "BR222222222"} ∧
     m.missing = {codes "BR333333333"} ∧
     m.extra = {codes "BR444444444"} ∧
     m.totalExpected = 3 ∧
     m.totalFound = 3 ∧
     m.vsStatus = VsStatus.EQUAL ∧
     m.vsPercent = 0 ∧
     m.rating = Rating.BAIXO) ∧
    (∀ r p : ℚ,
      (calculateQualityRating r p = Rating.ALTO ↔ r ≥ 90 ∧ p ≥ 80) ∧
      (calculateQualityRating r p = Rating.MEDIO ↔ ¬(r ≥ 90 ∧ p ≥ 80) ∧ (r ≥ 70 ∨ p ≥ 70)) ∧
      (calculateQualityRating r p = Rating.BAIXO ↔
        ¬(r ≥ 90 ∧ p ≥ 80) ∧ ¬(r ≥ 70 ∨ p ≥ 70))) := by
  constructor
  · simp [auditResults_example_eval]
  · intro r p
    unfold calculateQualityRating
    split_ifs with h1 h2 <;> refine ⟨?_, ?_, ?_⟩ <;> simp_all

/-- C10: whenever the audit produced from a benchmark-table lookup takes the
with-benchmark branch, the expected identifier list is non-empty (an empty
list is routed by `_get_benchmark` to the no-benchmark report), hence the
expected count is positive, the divisions by it are safe, and the guarded
`recall = 0 if expected empty` case is unreachable: recall equals the actual
quotient. -/
theorem claim_C10_expected_count_positive (entry : Option (List (List Nat) × Nat))
    (foundBrs : List (List Nat)) (foundWos : Nat) (m : AuditMetrics)
    (h : auditResultsReport (getBenchmark entry) foundBrs foundWos =
      AuditReport.withBenchmark m) :
    (getBenchmark entry).expected_brs ≠ [] ∧
    0 < m.totalExpected ∧
    m.recallQ = (m.totalMatched : ℚ) / (m.totalExpected : ℚ) * 100 := by
  match entry with
  | none => simp [getBenchmark, auditResultsReport] at h
  | some (brs, wos) =>
    by_cases hb : brs = []
    · subst hb
      simp [getBenchmark, auditResultsReport] at h
    · have hbm : getBenchmark (some (brs, wos)) =
          { expected_brs := brs, expected_wos := wos, has_benchmark := true } := by
        simp [getBenchmark, hb]
      rw [hbm] at h ⊢
      simp only [auditResultsReport, Bool.true_eq_false, if_false, ite_false,
        AuditReport.withBenchmark.injEq, reduceIte] at h
      have hlen : 0 < (brs.map normalizePatentNumber).length := by
        simpa using List.length_pos.mpr hb
      subst h
      refine ⟨hb, ?_, ?_⟩
      · simpa [auditResults] using hlen
      · simp only [auditResults, hlen, if_pos, gt_iff_lt]

/-- Witness for C10 with the darolutamide benchmark entry and one found
identifier. -/
theorem claim_C10_expected_count_positive_witness :
    (getBenchmark (cortellisBenchmarks (codes "darolutamide"))).expected_brs ≠ [] ∧
    0 < (auditResults (getBenchmark (cortellisBenchmarks (codes "darolutamide"))).expected_brs
        [codes "BR112017027822"]).totalExpected ∧
    (auditResults (getBenchmark (cortellisBenchmarks (codes "darolutamide"))).expected_brs
        [codes "BR112017027822"]).recallQ =
      ((auditResults (getBenchmark (cortellisBenchmarks (codes "darolutamide"))).expected_brs
          [codes "BR112017027822"]).totalMatched : ℚ) /
        ((auditResults (getBenchmark (cortellisBenchmarks (codes "darolutamide"))).expected_brs
            [codes "BR112017027822"]).totalExpected : ℚ) * 100 :=
  claim_C10_expected_count_positive (cortellisBenchmarks (codes "darolutamide"))
    [codes "BR112017027822"] 174 _ (by
      have hbm : (getBenchmark (cortellisBenchmarks (codes "darolutamide"))).has_benchmark =
          true := by decide
      simp [auditResultsReport, hbm])

/-- C4: the strategy executor isolates failures: with three strategies of
which the second raises, the consolidated output keeps strategy 1 and 3
records and metadata intact, marks strategy 2 failed with the exception text
in its error field and zero found patents, and the consolidated record set is
the deduplication of exactly the non-failing strategies' contributions. -/
theorem claim_C4_executor_isolates_failures (p1 p3 : List Patent)
    (m1 m3 : StrategyMeta) (e : List Nat) :
    executeAllStrategies [Except.ok (p1, m1), Except.error e, Except.ok (p3, m3)] =
      (deduplicatePatents (p1 ++ p3),
       [m1,
        { name := getStrategyName 2, status := StratStatus.failed,
          error := some e, patents_found := 0 },
        m3]) ∧
    ∀ q ∈ (executeAllStrategies
        [Except.ok (p1, m1), Except.error e, Except.ok (p3, m3)]).1, q ∈ p1 ++ p3 := by
  have hcons : consolidate 1 [Except.ok (p1, m1), Except.error e, Except.ok (p3, m3)] =
      (p1 ++ p3,
       [m1,
        { name := getStrategyName 2, status := StratStatus.failed,
          error := some e, patents_found := 0 },
        m3]) := by
    simp [consolidate]
  constructor
  · simp [executeAllStrategies, hcons]
  · intro q hq
    simp only [executeAllStrategies, hcons] at hq
    exact mem_dedupGo_mem hq

/-- Witness for C4 on concrete strategies and a concrete error text. -/
theorem claim_C4_executor_isolates_failures_witness :
    executeAllStrategies
        [Except.ok ([recNoAbstract], sampleMetaTextual),
         Except.error (codes "Timeout connecting to INPI"),
         Except.ok ([recWithAbstract], sampleMetaIpc)] =
      (deduplicatePatents ([recNoAbstract] ++ [recWithAbstract]),
       [sampleMetaTextual,
        { name := getStrategyName 2, status := StratStatus.failed,
          error := some (codes "Timeout connecting to INPI"), patents_found := 0 },
        sampleMetaIpc]) ∧
    recNoAbstract ∈ ([recNoAbstract] ++ [recWithAbstract] : List Patent) :=
  ⟨(claim_C4_executor_isolates_failures [recNoAbstract] [recWithAbstract]
      sampleMetaTextual sampleMetaIpc (codes "Timeout connecting to INPI")).1,
   (claim_C4_executor_isolates_failures [recNoAbstract] [recWithAbstract]
      sampleMetaTextual sampleMetaIpc (codes "Timeout connecting to INPI")).2
     recNoAbstract (by decide)⟩

theorem enrichBr_title_of_ne {p : Patent} (resp : Option EpoBib) (h : p.title ≠ []) :
    (enrichBrMetadata resp p).title = p.title := by
  cases resp with
  | none => rfl
  | some bib =>
    simp [enrichBrMetadata, updIpc, updInventors, updApplicants, updAbstract, updTitle,
      apply_ite Patent.title, h]

theorem enrichBr_abstract_of_ne {p : Patent} (resp : Option EpoBib) (h : p.abstract ≠ []) :
    (enrichBrMetadata resp p).abstract = p.abstract := by
  cases resp with
  | none => rfl
  | some bib =>
    simp [enrichBrMetadata, updIpc, updInventors, updApplicants, updAbstract, updTitle,
      apply_ite Patent.abstract, h]

theorem enrichBr_applicants_of_ne {p : Patent} (resp : Option EpoBib)
    (h : p.applicants ≠ []) : (enrichBrMetadata resp p).applicants = p.applicants := by
  cases resp with
  | none => rfl
  | some bib =>
    simp [enrichBrMetadata, updIpc, updInventors, updApplicants, updAbstract, updTitle,
      apply_ite Patent.applicants, h]

theorem enrichBr_inventors_of_ne {p : Patent} (resp : Option EpoBib)
    (h : p.inventors ≠ []) : (enrichBrMetadata resp p).inventors = p.inventors := by
  cases resp with
  | none => rfl
  | some bib =>
    simp [enrichBrMetadata, updIpc, updInventors, updApplicants, updAbstract, updTitle,
      apply_ite Patent.inventors, h]

theorem enrichBr_ipc_of_ne {p : Patent} (resp : Option EpoBib)
    (h : p.ipc_codes ≠ []) : (enrichBrMetadata resp p).ipc_codes = p.ipc_codes := by
  cases resp with
  | none => rfl
  | some bib =>
    simp [enrichBrMetadata, updIpc, updInventors, updApplicants, updAbstract, updTitle,
      apply_ite Patent.ipc_codes, h]

theorem enrichBr_patent_number (resp : Option EpoBib) (p : Patent) :
    (enrichBrMetadata resp p).patent_number = p.patent_number := by
  cases resp with
  | none => rfl
  | some bib =>
    simp [enrichBrMetadata, updIpc, updInventors, updApplicants, updAbstract, updTitle,
      apply_ite Patent.patent_number]

theorem enrichBr_filing_date (resp : Option EpoBib) (p : Patent) :
    (enrichBrMetadata resp p).filing_date = p.filing_date := by
  cases resp with
  | none => rfl
  | some bib =>
    simp [enrichBrMetadata, updIpc, updInventors, updApplicants, updAbstract, updTitle,
      apply_ite Patent.filing_date]

theorem enrichBr_source (resp : Option EpoBib) (p : Patent) :
    (enrichBrMetadata resp p).source = p.source := by
  cases resp with
  | none => rfl
  | some bib =>
    simp [enrichBrMetadata, updIpc, updInventors, updApplicants, updAbstract, updTitle,
      apply_ite Patent.source]

theorem enrichBr_country (resp : Option EpoBib) (p : Patent) :
    (enrichBrMetadata resp p).country = p.country := by
  cases resp with
  | none => rfl
  | some bib =>
    simp [enrichBrMetadata, updIpc, updInventors, updApplicants, updAbstract, updTitle,
      apply_ite Patent.country]

theorem googleGo_title (resps : List (Option GoogleBib)) (p : Patent) :
    (googleGo resps p).title = p.title := by
  induction resps generalizing p with
  | nil => rfl
  | cons r rest ih =>
    cases r with
    | none => exact ih p
    | some bib =>
      simp only [googleGo]
      split
      · rfl
      · split
        · simp [updIpc, updInventors, updApplicants, apply_ite Patent.title]
        · rw [ih]
          simp [updIpc, updInventors, updApplicants, apply_ite Patent.title]

theorem googleGo_patent_number (resps : List (Option GoogleBib)) (p : Patent) :
    (googleGo resps p).patent_number = p.patent_number := by
  induction resps generalizing p with
  | nil => rfl
  | cons r rest ih =>
    cases r with
    | none => exact ih p
    | some bib =>
      simp only [googleGo]
      split
      · rfl
      · split
        · simp [updIpc, updInventors, updApplicants, apply_ite Patent.patent_number]
        · rw [ih]
          simp [updIpc, updInventors, updApplicants, apply_ite Patent.patent_number]

theorem googleGo_filing_date (resps : List (Option GoogleBib)) (p : Patent) :
    (googleGo resps p).filing_date = p.filing_date := by
  induction resps generalizing p with
  | nil => rfl
  | cons r rest ih =>
    cases r with
    | none => exact ih p
    | some bib =>
      simp only [googleGo]
      split
      · rfl
      · split
        · simp [updIpc, updInventors, updApplicants, apply_ite Patent.filing_date]
        · rw [ih]
          simp [updIpc, updInventors, updApplicants, apply_ite Patent.filing_date]

theorem googleGo_source (resps : List (Option GoogleBib)) (p : Patent) :
    (googleGo resps p).source = p.source := by
  induction resps generalizing p with
  | nil => rfl
  | cons r rest ih =>
    cases r with
    | none => exact ih p
    | some bib =>
      simp only [googleGo]
      split
      · rfl
      · split
        · simp [updIpc, updInventors, updApplicants, apply_ite Patent.source]
        · rw [ih]
          simp [updIpc, updInventors, updApplicants, apply_ite Patent.source]

theorem googleGo_country (resps : List (Option GoogleBib)) (p : Patent) :
    (googleGo resps p).country = p.country := by
  induction resps generalizing p with
  | nil => rfl
  | cons r rest ih =>
    cases r with
    | none => exact ih p
    | some bib =>
      simp only [googleGo]
      split
      · rfl
      · split
        · simp [updIpc, updInventors, updApplicants, apply_ite Patent.country]
        · rw [ih]
          simp [updIpc, updInventors, updApplicants, apply_ite Patent.country]

theorem googleGo_abstract_of_ne {p : Patent} (resps : List (Option GoogleBib))
    (h : p.abstract ≠ []) : (googleGo resps p).abstract = p.abstract := by
  induction resps generalizing p with
  | nil => rfl
  | cons r rest ih =>
    cases r with
    | none => exact ih h
    | some bib =>
      have habs : (updIpc bib.ipcCand (updInventors bib.inventorsCand
          (updApplicants bib.applicantsCand p))).abstract = p.abstract := by
        simp [updIpc, updInventors, updApplicants, apply_ite Patent.abstract]
      simp only [googleGo]
      rw [if_neg (fun hc => h hc.1)]
      split
      · exact habs
      · exact (ih (by rw [habs]; exact h)).trans habs

theorem googleGo_applicants_of_ne {p : Patent} (resps : List (Option GoogleBib))
    (h : p.applicants ≠ []) : (googleGo resps p).applicants = p.applicants := by
  induction resps generalizing p with
  | nil => rfl
  | cons r rest ih =>
    cases r with
    | none => exact ih h
    | some bib =>
      have happ : (updIpc bib.ipcCand (updInventors bib.inventorsCand
          (updApplicants bib.applicantsCand p))).applicants = p.applicants := by
        simp [updIpc, updInventors, updApplicants, apply_ite Patent.applicants, h]
      simp only [googleGo]
      split
      · rfl
      · split
        · exact happ
        · exact (ih (by rw [happ]; exact h)).trans happ

theorem googleGo_inventors_of_ne {p : Patent} (resps : List (Option GoogleBib))
    (h : p.inventors ≠ []) : (googleGo resps p).inventors = p.inventors := by
  induction resps generalizing p with
  | nil => rfl
  | cons r rest ih =>
    cases r with
    | none => exact ih h
    | some bib =>
      have hinv : (updIpc bib.ipcCand (updInventors bib.inventorsCand
          (updApplicants bib.applicantsCand p))).inventors = p.inventors := by
        simp [updIpc, updInventors, updApplicants, apply_ite Patent.inventors, h]
      simp only [googleGo]
      split
      · rfl
      · split
        · exact hinv
        · exact (ih (by rw [hinv]; exact h)).trans hinv

theorem googleGo_ipc_of_ne {p : Patent} (resps : List (Option GoogleBib))
    (h : p.ipc_codes ≠ []) : (googleGo resps p).ipc_codes = p.ipc_codes := by
  induction resps generalizing p with
  | nil => rfl
  | cons r rest ih =>
    cases r with
    | none => exact ih h
    | some bib =>
      have hipc : (updIpc bib.ipcCand (updInventors bib.inventorsCand
          (updApplicants bib.applicantsCand p))).ipc_codes = p.ipc_codes := by
        simp [updIpc, updInventors, updApplicants, apply_ite Patent.ipc_codes, h]
      simp only [googleGo]
      split
      · rfl
      · split
        · exact hipc
        · exact (ih (by rw [hipc]; exact h)).trans hipc

/-- C7: the enrichment steps never overwrite a populated field: for every
record and every secondary-source response, a field (title, abstract,
applicants, inventors, ipc_codes) that is non-empty before `enrich_br_metadata`
or `enrich_from_google_patents` is returned unchanged, regardless of the
response contents; and the fields the cascade never targets (identifier,
filing date, source, country — and title for the Google step) are always
unchanged. -/
theorem claim_C7_enrichment_never_overwrites (resp : Option EpoBib)
    (resps : List (Option GoogleBib)) (p : Patent) :
    (p.title ≠ [] → (enrichBrMetadata resp p).title = p.title) ∧
    (p.abstract ≠ [] → (enrichBrMetadata resp p).abstract = p.abstract) ∧
    (p.applicants ≠ [] → (enrichBrMetadata resp p).applicants = p.applicants) ∧
    (p.inventors ≠ [] → (enrichBrMetadata resp p).inventors = p.inventors) ∧
    (p.ipc_codes ≠ [] → (enrichBrMetadata resp p).ipc_codes = p.ipc_codes) ∧
    (enrichBrMetadata resp p).patent_number = p.patent_number ∧
    (enrichBrMetadata resp p).filing_date = p.filing_date ∧
    (enrichBrMetadata resp p).source = p.source ∧
    (enrichBrMetadata resp p).country = p.country ∧
    (enrichFromGooglePatents resps p).title = p.title ∧
    (p.abstract ≠ [] → (enrichFromGooglePatents resps p).abstract = p.abstract) ∧
    (p.applicants ≠ [] → (enrichFromGooglePatents resps p).applicants = p.applicants) ∧
    (p.inventors ≠ [] → (enrichFromGooglePatents resps p).inventors = p.inventors) ∧
    (p.ipc_codes ≠ [] → (enrichFromGooglePatents resps p).ipc_codes = p.ipc_codes) ∧
    (enrichFromGooglePatents resps p).patent_number = p.patent_number ∧
    (enrichFromGooglePatents resps p).filing_date = p.filing_date ∧
    (enrichFromGooglePatents resps p).source = p.source ∧
    (enrichFromGooglePatents resps p).country = p.country := by
  refine ⟨fun h => enrichBr_title_of_ne resp h,
    fun h => enrichBr_abstract_of_ne resp h,
    fun h => enrichBr_applicants_of_ne resp h,
    fun h => enrichBr_inventors_of_ne resp h,
    fun h => enrichBr_ipc_of_ne resp h,
    enrichBr_patent_number resp p,
    enrichBr_filing_date resp p,
    enrichBr_source resp p,
    enrichBr_country resp p,
    ?_, ?_, ?_, ?_, ?_, ?_, ?_, ?_, ?_⟩ <;>
    unfold enrichFromGooglePatents <;> split
  · rfl
  · exact googleGo_title resps p
  · exact fun _ => rfl
  · exact fun h => googleGo_abstract_of_ne resps h
  · exact fun _ => rfl
  · exact fun h => googleGo_applicants_of_ne resps h
  · exact fun _ => rfl
  · exact fun h => googleGo_inventors_of_ne resps h
  · exact fun _ => rfl
  · exact fun h => googleGo_ipc_of_ne resps h
  · rfl
  · exact googleGo_patent_number resps p
  · rfl
  · exact googleGo_filing_date resps p
  · rfl
  · exact googleGo_source resps p
  · rfl
  · exact googleGo_country resps p

/-- Witness for C7 on a record whose title, abstract and applicants are
populated, against responses whose candidates are all non-empty. -/
theorem claim_C7_enrichment_never_overwrites_witness :
    (enrichBrMetadata (some sampleEpoBib) recWithAbstract).abstract =
      recWithAbstract.abstract ∧
    (enrichBrMetadata (some sampleEpoBib) recWithAbstract).title = recWithAbstract.title ∧
    (enrichBrMetadata (some sampleEpoBib) recWithAbstract).applicants =
      recWithAbstract.applicants ∧
    (enrichFromGooglePatents [some sampleGoogleBib] recWithAbstract).abstract =
      recWithAbstract.abstract ∧
    (enrichFromGooglePatents [some sampleGoogleBib] recWithAbstract).applicants =
      recWithAbstract.applicants := by
  obtain ⟨ht, ha, hap, _, _, _, _, _, _, _, hga, hgap, _, _, _, _, _, _⟩ :=
    claim_C7_enrichment_never_overwrites (some sampleEpoBib) [some sampleGoogleBib]
      recWithAbstract
  exact ⟨ha (by decide), ht (by decide), hap (by decide), hga (by decide), hgap (by decide)⟩

/-- C9, counterexample: an empty (whitespace-only) molecule name is not
rejected: the pre-network prelude of the search operation accepts it and
proceeds towards the unconditional EPO token fetch, yielding the plan with an
empty molecule and the default target country, instead of any error. -/
theorem claim_C9_empty_molecule_cex :
    (searchPreNetwork (codes "   ") [] []).isOk = true ∧
    searchPreNetwork (codes "   ") [] [] =
      Except.ok { molecule := [], brand := [], target_countries := [codes "BR"] } :=
  ⟨rfl, rfl⟩

/-- C9, amended: the search operation performs no molecule-name validation at
all: for every input, including an empty or whitespace molecule name, the
pre-network prelude succeeds (there is no rejection branch before the first
upstream call), with the stripped molecule name and a non-empty target
country list (defaulting to BR). -/
theorem claim_C9_no_validation_amended (nome brand : List Nat)
    (paises : List (List Nat)) :
    ∃ plan : PreNetworkPlan,
      searchPreNetwork nome brand paises = Except.ok plan ∧
      plan.molecule = pyStrip nome ∧
      plan.target_countries ≠ [] := by
  refine ⟨_, rfl, rfl, ?_⟩
  simp only [searchPreNetwork]
  split
  · simp
  · rename_i h
    exact h

end Pharmyrus
